import Mathlib

/-!
Verification of the Kanban board component
(src/src/frontend/lib/types/Tasks.tsx) against its specification.

The component is a single-threaded UI module; its logic is shallowly
embedded here: the task/column data model, the pure Filter Engine, and the
stateful controllers (status change, task deletion, column deletion,
column creation, column reorder, tag-vocabulary bookkeeping) as explicit
state-passing functions.  Backend calls are suspension points whose
results are modelled as outcome parameters (success payload or failure).
-/

namespace Kanban

/-- Priority enum from the source: 'low' | 'medium' | 'high'. -/
inductive KanbanPriority where
  | low
  | medium
  | high
deriving DecidableEq, Repr

/-- Priority filter value: `KanbanPriority | 'all'` in the source. -/
inductive PriorityFilterValue where
  | all
  | exact (p : KanbanPriority)
deriving DecidableEq, Repr

/-- Client-side task record (interface Task in the source). -/
structure Task where
  id : Nat
  title : String
  description : String
  status : String
  priority : KanbanPriority
  dueDate : Option String
  assignee : String
  tags : List String
  company : String
  companyContactName : String
  companyContactPhone : String
  jobNumber : String
  serviceQuote : String
  createdAt : String
  updatedAt : String
deriving DecidableEq, Repr

/-- Column record (interface Column in the source). -/
structure Column where
  id : String
  label : String
  color : String
deriving DecidableEq, Repr

instance : Inhabited Column := ⟨⟨"", "", ""⟩⟩

/-- Filter-criteria record (interface Filters in the source). -/
structure Filters where
  search : String
  column : String
  priority : PriorityFilterValue
  tags : List String
  assignee : String
  jobNumber : String
  serviceQuote : String
deriving DecidableEq, Repr

/-- Boolean test that a needle list is an initial segment of a hay list
(model of the stepwise comparison underlying String.includes). -/
def charsPrefixAt : List Char → List Char → Bool
  | [], _ => true
  | _ :: _, [] => false
  | a :: as, b :: bs => a == b && charsPrefixAt as bs

/-- Boolean substring test on character lists: the needle occurs
contiguously somewhere in the hay. -/
def charsIncludes (needle : List Char) : List Char → Bool
  | [] => charsPrefixAt needle []
  | b :: bs => charsPrefixAt needle (b :: bs) || charsIncludes needle bs

/-- Model of JavaScript String.prototype.includes, as used by the search
predicate of the Filter Engine. -/
def stringIncludes (hay needle : String) : Bool :=
  charsIncludes needle.data hay.data

/-- Model of JavaScript String.prototype.trim: strip leading and trailing
whitespace. -/
def strTrim (s : String) : String :=
  ⟨((s.data.dropWhile Char.isWhitespace).reverse.dropWhile Char.isWhitespace).reverse⟩

/-- Model of JavaScript String.prototype.toLowerCase (ASCII case folding). -/
def strToLower (s : String) : String :=
  ⟨s.data.map Char.toLower⟩

/-- The search haystack built by filteredTasks: the listed task fields
joined with single spaces (tags themselves joined with spaces first). -/
def searchHaystack (task : Task) : String :=
  String.intercalate " "
    [task.title, task.description, task.assignee,
      String.intercalate " " task.tags, task.company,
      task.companyContactName, task.companyContactPhone,
      task.jobNumber, task.serviceQuote]

/-- The priority predicate of the Filter Engine: in the source,
priorityFilter !== 'all' && task.priority !== priorityFilter. -/
def priorityFilterExcludes : PriorityFilterValue → KanbanPriority → Bool
  | .all, _ => false
  | .exact p, q => q != p

/-- The per-task predicate of the Filter Engine (the body of the
tasks.filter callback inside the filteredTasks useMemo). -/
def taskMatchesFilters (f : Filters) (task : Task) : Bool :=
  if f.column != "all" && task.status != f.column then false
  else if priorityFilterExcludes f.priority task.priority then false
  else if f.tags.length > 0 && !(f.tags.all fun tag => task.tags.contains tag) then false
  else if f.assignee != "all" && task.assignee != f.assignee then false
  else if f.jobNumber != "all" && task.jobNumber != f.jobNumber then false
  else if f.serviceQuote != "all" && task.serviceQuote != f.serviceQuote then false
  else if (strTrim f.search).length > 0 then
    stringIncludes (strToLower (searchHaystack task)) (strToLower (strTrim f.search))
  else true

/-- The Filter Engine: filteredTasks in the source. -/
def filteredTasks (f : Filters) (tasks : List Task) : List Task :=
  tasks.filter (taskMatchesFilters f)

lemma charsPrefixAt_iff (needle hay : List Char) :
    charsPrefixAt needle hay = true ↔ ∃ r, hay = needle ++ r := by
  induction needle generalizing hay with
  | nil => simp [charsPrefixAt]
  | cons a as ih =>
    cases hay with
    | nil => simp [charsPrefixAt]
    | cons b bs =>
      simp only [charsPrefixAt, Bool.and_eq_true, beq_iff_eq, ih]
      constructor
      · rintro ⟨rfl, r, rfl⟩
        exact ⟨r, rfl⟩
      · rintro ⟨r, h⟩
        cases h
        exact ⟨rfl, r, rfl⟩

lemma charsIncludes_iff (needle hay : List Char) :
    charsIncludes needle hay = true ↔ ∃ l r, hay = l ++ needle ++ r := by
  induction hay with
  | nil =>
    simp only [charsIncludes, charsPrefixAt_iff]
    constructor
    · rintro ⟨r, h⟩
      exact ⟨[], r, by simpa using h⟩
    · rintro ⟨l, r, h⟩
      rcases List.append_eq_nil.mp h.symm with ⟨h1, rfl⟩
      rcases List.append_eq_nil.mp h1 with ⟨rfl, rfl⟩
      exact ⟨[], rfl⟩
  | cons b bs ih =>
    simp only [charsIncludes, Bool.or_eq_true, charsPrefixAt_iff, ih]
    constructor
    · rintro (⟨r, h⟩ | ⟨l, r, h⟩)
      · exact ⟨[], r, by simpa using h⟩
      · exact ⟨b :: l, r, by simp [h]⟩
    · rintro ⟨l, r, h⟩
      cases l with
      | nil => exact Or.inl ⟨r, by simpa using h⟩
      | cons x xs =>
        simp only [List.cons_append, List.cons.injEq] at h
        exact Or.inr ⟨xs, r, h.2⟩

lemma string_length_pos_iff (s : String) : 0 < s.length ↔ s ≠ "" := by
  cases s with
  | mk data =>
    cases data with
    | nil => simp [String.length]
    | cons c cs =>
      constructor
      · intro _ h
        have hdata : c :: cs = ([] : List Char) := congrArg String.data h
        cases hdata
      · intro _
        simp [String.length]

/-- Propositional characterization of the Filter Engine predicate: a task
passes exactly when every non-default criterion is satisfied. -/
lemma taskMatchesFilters_iff (f : Filters) (task : Task) :
    taskMatchesFilters f task = true ↔
      ((f.column ≠ "all" → task.status = f.column)
        ∧ (∀ p, f.priority = .exact p → task.priority = p)
        ∧ (∀ tag ∈ f.tags, tag ∈ task.tags)
        ∧ (f.assignee ≠ "all" → task.assignee = f.assignee)
        ∧ (f.jobNumber ≠ "all" → task.jobNumber = f.jobNumber)
        ∧ (f.serviceQuote ≠ "all" → task.serviceQuote = f.serviceQuote)
        ∧ (strTrim f.search ≠ "" →
            stringIncludes (strToLower (searchHaystack task)) (strToLower (strTrim f.search)) = true)) := by
  unfold taskMatchesFilters
  have hPrio : priorityFilterExcludes f.priority task.priority = false ↔
      (∀ p, f.priority = .exact p → task.priority = p) := by
    cases f.priority with
    | all => simp [priorityFilterExcludes]
    | exact p =>
      simp only [priorityFilterExcludes, bne_eq_false_iff_eq]
      constructor
      · intro h q hq
        cases hq
        exact h
      · intro h
        exact h p rfl
  have hTags : (f.tags.length > 0 && !(f.tags.all fun tag => task.tags.contains tag)) = false ↔
      (∀ tag ∈ f.tags, tag ∈ task.tags) := by
    cases hT : f.tags with
    | nil => simp
    | cons a rest => simp [List.all_eq_true]
  by_cases h1 : (f.column != "all" && task.status != f.column) = true
  · rw [if_pos h1]
    simp only [Bool.and_eq_true, bne_iff_ne] at h1
    refine iff_of_false (by simp) fun hc => ?_
    exact h1.2 (hc.1 h1.1)
  · rw [if_neg h1]
    have hcol : f.column ≠ "all" → task.status = f.column := by
      simp only [Bool.and_eq_true, bne_iff_ne, not_and] at h1
      intro hc
      by_contra hne
      exact (h1 hc) hne
    by_cases h2 : priorityFilterExcludes f.priority task.priority = true
    · rw [if_pos h2]
      refine iff_of_false (by simp) fun hc => ?_
      rw [hPrio.mpr hc.2.1] at h2
      cases h2
    · rw [if_neg h2]
      have hprio := hPrio.mp (Bool.not_eq_true _ ▸ h2)
      by_cases h3 : (f.tags.length > 0 && !(f.tags.all fun tag => task.tags.contains tag)) = true
      · rw [if_pos h3]
        refine iff_of_false (by simp) fun hc => ?_
        rw [hTags.mpr hc.2.2.1] at h3
        cases h3
      · rw [if_neg h3]
        have htags := hTags.mp (Bool.not_eq_true _ ▸ h3)
        by_cases h4 : (f.assignee != "all" && task.assignee != f.assignee) = true
        · rw [if_pos h4]
          simp only [Bool.and_eq_true, bne_iff_ne] at h4
          refine iff_of_false (by simp) fun hc => ?_
          exact h4.2 (hc.2.2.2.1 h4.1)
        · rw [if_neg h4]
          have hass : f.assignee ≠ "all" → task.assignee = f.assignee := by
            simp only [Bool.and_eq_true, bne_iff_ne, not_and] at h4
            intro hc; by_contra hne; exact (h4 hc) hne
          by_cases h5 : (f.jobNumber != "all" && task.jobNumber != f.jobNumber) = true
          · rw [if_pos h5]
            simp only [Bool.and_eq_true, bne_iff_ne] at h5
            refine iff_of_false (by simp) fun hc => ?_
            exact h5.2 (hc.2.2.2.2.1 h5.1)
          · rw [if_neg h5]
            have hjob : f.jobNumber ≠ "all" → task.jobNumber = f.jobNumber := by
              simp only [Bool.and_eq_true, bne_iff_ne, not_and] at h5
              intro hc; by_contra hne; exact (h5 hc) hne
            by_cases h6 : (f.serviceQuote != "all" && task.serviceQuote != f.serviceQuote) = true
            · rw [if_pos h6]
              simp only [Bool.and_eq_true, bne_iff_ne] at h6
              refine iff_of_false (by simp) fun hc => ?_
              exact h6.2 (hc.2.2.2.2.2.1 h6.1)
            · rw [if_neg h6]
              have hquote : f.serviceQuote ≠ "all" → task.serviceQuote = f.serviceQuote := by
                simp only [Bool.and_eq_true, bne_iff_ne, not_and] at h6
                intro hc; by_contra hne; exact (h6 hc) hne
              by_cases h7 : (0 < (strTrim f.search).length)
              · rw [if_pos h7]
                have hne := (string_length_pos_iff (strTrim f.search)).mp h7
                constructor
                · intro hagree
                  exact ⟨hcol, hprio, htags, hass, hjob, hquote, fun _ => hagree⟩
                · intro hc
                  exact hc.2.2.2.2.2.2 hne
              · rw [if_neg h7]
                refine iff_of_true rfl ?_
                refine ⟨hcol, hprio, htags, hass, hjob, hquote, fun hne => ?_⟩
                exact absurd ((string_length_pos_iff (strTrim f.search)).mpr hne) h7

/-- C1.  For every task list and filter-criteria record, the Filter Engine
returns a subset of the input on which every non-default predicate holds
(column, priority, assignee, job number, service quote as exact matches
skipped at the sentinel, tags with AND semantics, and trimmed
case-insensitive substring search over the concatenated fields), and
relaxing any single predicate to its default yields a superset. -/
theorem filterEngine_subset_satisfies_monotone (f : Filters) (tasks : List Task) :
    (∀ task ∈ filteredTasks f tasks, task ∈ tasks)
    ∧ (∀ task ∈ filteredTasks f tasks,
        (f.column ≠ "all" → task.status = f.column)
        ∧ (∀ p, f.priority = .exact p → task.priority = p)
        ∧ (∀ tag ∈ f.tags, tag ∈ task.tags)
        ∧ (f.assignee ≠ "all" → task.assignee = f.assignee)
        ∧ (f.jobNumber ≠ "all" → task.jobNumber = f.jobNumber)
        ∧ (f.serviceQuote ≠ "all" → task.serviceQuote = f.serviceQuote)
        ∧ (strTrim f.search ≠ "" → ∃ l r,
            (strToLower (searchHaystack task)).data
              = l ++ (strToLower (strTrim f.search)).data ++ r))
    ∧ (∀ task ∈ filteredTasks f tasks,
        task ∈ filteredTasks { f with search := "" } tasks
        ∧ task ∈ filteredTasks { f with column := "all" } tasks
        ∧ task ∈ filteredTasks { f with priority := .all } tasks
        ∧ task ∈ filteredTasks { f with tags := [] } tasks
        ∧ task ∈ filteredTasks { f with assignee := "all" } tasks
        ∧ task ∈ filteredTasks { f with jobNumber := "all" } tasks
        ∧ task ∈ filteredTasks { f with serviceQuote := "all" } tasks) := by
  refine ⟨fun task h => (List.mem_filter.mp h).1, fun task h => ?_, fun task h => ?_⟩
  · obtain ⟨hmem, hmatch⟩ := List.mem_filter.mp h
    obtain ⟨hcol, hprio, htags, hass, hjob, hquote, hsearch⟩ :=
      (taskMatchesFilters_iff f task).mp hmatch
    refine ⟨hcol, hprio, htags, hass, hjob, hquote, fun hne => ?_⟩
    exact (charsIncludes_iff _ _).mp (hsearch hne)
  · obtain ⟨hmem, hmatch⟩ := List.mem_filter.mp h
    obtain ⟨hcol, hprio, htags, hass, hjob, hquote, hsearch⟩ :=
      (taskMatchesFilters_iff f task).mp hmatch
    refine ⟨?_, ?_, ?_, ?_, ?_, ?_, ?_⟩ <;>
      refine List.mem_filter.mpr ⟨hmem, (taskMatchesFilters_iff _ task).mpr ?_⟩
    · exact ⟨hcol, hprio, htags, hass, hjob, hquote,
        fun hne => absurd (by decide : strTrim "" = "") hne⟩
    · exact ⟨by simp, hprio, htags, hass, hjob, hquote, hsearch⟩
    · exact ⟨hcol, by simp, htags, hass, hjob, hquote, hsearch⟩
    · exact ⟨hcol, hprio, by simp, hass, hjob, hquote, hsearch⟩
    · exact ⟨hcol, hprio, htags, by simp, hjob, hquote, hsearch⟩
    · exact ⟨hcol, hprio, htags, hass, by simp, hquote, hsearch⟩
    · exact ⟨hcol, hprio, htags, hass, hjob, by simp, hsearch⟩

/-- Sample task used by concrete witnesses. -/
def sampleTask : Task :=
  { id := 1, title := "Alpha install", description := "Install the unit",
    status := "doing", priority := .high, dueDate := none,
    assignee := "Ann", tags := ["Service orders", "Urgent"],
    company := "Acme", companyContactName := "Bob",
    companyContactPhone := "555", jobNumber := "J1", serviceQuote := "Q1",
    createdAt := "", updatedAt := "" }

/-- Sample filter criteria with every predicate active. -/
def sampleFilters : Filters :=
  { search := " alpha ", column := "doing", priority := .exact .high,
    tags := ["Urgent"], assignee := "Ann", jobNumber := "J1",
    serviceQuote := "Q1" }

/-- Witness for C1 at a concrete task list and criteria record: the sample
task passes every active predicate, so the theorem's conclusions evaluate
on it. -/
theorem filterEngine_subset_satisfies_monotone_witness :
    sampleTask ∈ [sampleTask]
    ∧ sampleTask.status = sampleFilters.column
    ∧ sampleTask ∈ filteredTasks { sampleFilters with column := "all" } [sampleTask] := by
  have hmem : sampleTask ∈ filteredTasks sampleFilters [sampleTask] := by decide
  have h := filterEngine_subset_satisfies_monotone sampleFilters [sampleTask]
  exact ⟨h.1 sampleTask hmem,
    (h.2.1 sampleTask hmem).1 (by decide),
    (h.2.2 sampleTask hmem).2.1⟩

/-- C10.  The Filter Engine's output is an order-preserving subsequence of
its input list: filtering never reorders tasks. -/
theorem filteredTasks_sublist (f : Filters) (tasks : List Task) :
    (filteredTasks f tasks).Sublist tasks :=
  List.filter_sublist tasks

/-! ### slugify -/

/-- The character class [a-z0-9] of the first slugify regex. -/
def isSlugChar (c : Char) : Bool :=
  ('a' ≤ c && c ≤ 'z') || ('0' ≤ c && c ≤ '9')

/-- Scanner for the global replace of /[^a-z0-9]+/ by '-': the flag
records whether the scan is inside a non-matching run whose single '-'
replacement was already emitted. -/
def collapseAux : Bool → List Char → List Char
  | _, [] => []
  | inRun, c :: rest =>
    if isSlugChar c then c :: collapseAux false rest
    else if inRun then collapseAux inRun rest
    else '-' :: collapseAux true rest

/-- Replace every maximal run of characters outside [a-z0-9] by a single
'-' (the first regex replace in slugify). -/
def collapseRuns (l : List Char) : List Char :=
  collapseAux false l

/-- Remove a single leading '-' when present; the global replace of
/(^-|-$)+/ removes exactly one leading and one trailing dash. -/
def dropLeadingDash (l : List Char) : List Char :=
  match l with
  | c :: rest => if c == '-' then rest else l
  | [] => []

/-- The second regex replace in slugify: strip the (single, after run
collapsing) leading and trailing dash. -/
def trimDashes (l : List Char) : List Char :=
  (dropLeadingDash (dropLeadingDash l).reverse).reverse

/-- slugify from the source.  The random generateId() suffix used for the
empty-slug fallback is passed in as the fresh identifier. -/
def slugify (value : String) (fresh : String) : String :=
  let slug : String := ⟨trimDashes (collapseRuns (strToLower value).data)⟩
  if slug.length > 0 then slug else "column-" ++ fresh

/-- The slug normalization exactly as the specification words it: the
lowercased input with non-alphanumeric runs collapsed to single
separators and all leading and trailing separators removed. -/
def slugifySpec (value : String) (fresh : String) : String :=
  let slug : String :=
    ⟨(((collapseRuns (strToLower value).data).dropWhile (fun c => c == '-')).reverse.dropWhile
        (fun c => c == '-')).reverse⟩
  if slug.length > 0 then slug else "column-" ++ fresh

/-- Adjacent characters of a collapsed slug are never both dashes. -/
def NoDoubleDash (l : List Char) : Prop :=
  List.Chain' (fun a b => ¬(a = '-' ∧ b = '-')) l

lemma isSlugChar_ne_dash {c : Char} (h : isSlugChar c = true) : c ≠ '-' := by
  intro hEq
  rw [hEq] at h
  cases h

lemma collapseAux_true_head (l : List Char) :
    ∀ x ∈ (collapseAux true l).head?, isSlugChar x = true := by
  induction l with
  | nil => simp [collapseAux]
  | cons c rest ih =>
    by_cases hc : isSlugChar c = true
    · simp [collapseAux, hc]
    · simpa [collapseAux, hc] using ih

lemma collapseAux_noDoubleDash (l : List Char) :
    ∀ b, NoDoubleDash (collapseAux b l) := by
  induction l with
  | nil => intro b; simp [collapseAux, NoDoubleDash]
  | cons c rest ih =>
    intro b
    by_cases hc : isSlugChar c = true
    · rw [show collapseAux b (c :: rest) = c :: collapseAux false rest by
        simp [collapseAux, hc]]
      refine List.chain'_cons'.mpr ⟨fun y _ => ?_, ih false⟩
      rintro ⟨hc', _⟩
      exact isSlugChar_ne_dash hc hc'
    · cases b with
      | true => simpa [collapseAux, hc] using ih true
      | false =>
        rw [show collapseAux false (c :: rest) = '-' :: collapseAux true rest by
          simp [collapseAux, hc]]
        refine List.chain'_cons'.mpr ⟨fun y hy => ?_, ih true⟩
        rintro ⟨_, hy'⟩
        exact isSlugChar_ne_dash (collapseAux_true_head rest y hy) hy'

lemma collapseRuns_noDoubleDash (l : List Char) : NoDoubleDash (collapseRuns l) :=
  collapseAux_noDoubleDash l false

lemma dropLeadingDash_eq_dropWhile {l : List Char} (h : NoDoubleDash l) :
    l.dropWhile (fun c => c == '-') = dropLeadingDash l
      ∧ NoDoubleDash (dropLeadingDash l) := by
  cases l with
  | nil => exact ⟨rfl, h⟩
  | cons c rest =>
    by_cases hc : c = '-'
    · subst hc
      have hTail : NoDoubleDash rest := (List.chain'_cons'.mp h).2
      refine ⟨?_, by simpa [dropLeadingDash]⟩
      rw [List.dropWhile_cons]
      simp only [beq_self_eq_true, if_true, dropLeadingDash, if_pos rfl]
      cases rest with
      | nil => rfl
      | cons d rest' =>
        have hd : d ≠ '-' := by
          have := (List.chain'_cons'.mp h).1 d (by simp)
          intro hEq
          exact this ⟨rfl, hEq⟩
        rw [List.dropWhile_cons, if_neg (by simp [hd])]
    · refine ⟨?_, by simpa [dropLeadingDash, hc]⟩
      rw [List.dropWhile_cons, if_neg (by simp [hc])]
      simp [dropLeadingDash, hc]

lemma noDoubleDash_reverse {l : List Char} (h : NoDoubleDash l) :
    NoDoubleDash l.reverse := by
  rw [NoDoubleDash, List.chain'_reverse]
  exact List.Chain'.imp (fun a b hab hba => hab ⟨hba.2, hba.1⟩) h

lemma trimDashes_eq_spec {l : List Char} (h : NoDoubleDash l) :
    trimDashes l
      = ((l.dropWhile (fun c => c == '-')).reverse.dropWhile (fun c => c == '-')).reverse := by
  obtain ⟨h1, h1'⟩ := dropLeadingDash_eq_dropWhile h
  rw [trimDashes, h1]
  obtain ⟨h2, _⟩ := dropLeadingDash_eq_dropWhile (noDoubleDash_reverse h1')
  rw [h2]

/-- C7.  slugify equals the specified normalization (lowercase, collapse
non-alphanumeric runs to single separators, strip leading and trailing
separators, fall back to a generated column identifier when empty) and
never returns the empty string. -/
theorem slugify_matches_spec (value fresh : String) :
    slugify value fresh = slugifySpec value fresh ∧ slugify value fresh ≠ "" := by
  have hEq : slugify value fresh = slugifySpec value fresh := by
    rw [slugify, slugifySpec, trimDashes_eq_spec (collapseRuns_noDoubleDash _)]
  refine ⟨hEq, ?_⟩
  rw [slugify]
  set slug : String := ⟨trimDashes (collapseRuns (strToLower value).data)⟩ with hslug
  by_cases hpos : 0 < slug.length
  · rw [if_pos hpos]
    exact (string_length_pos_iff slug).mp hpos
  · rw [if_neg hpos]
    intro hcontra
    have : ("column-" ++ fresh).data = ("" : String).data := congrArg String.data hcontra
    rw [String.data_append] at this
    cases this

/-! ### Stateful controllers -/

/-- Server card record (interface KanbanCard); fields the client defends
with ?? are optional here. -/
structure KanbanCard where
  id : Nat
  title : String
  description : Option String
  status : String
  priority : KanbanPriority
  due_date : Option String
  assignee : Option String
  tags : Option (List String)
  company : Option String
  company_contact_name : Option String
  company_contact_phone : Option String
  job_number : Option String
  service_quote : Option String
  is_active : Bool
  created_at : String
  updated_at : String
deriving DecidableEq, Repr

/-- convertCardToTask from the source: project a server card onto the
client task shape, defaulting absent optional fields. -/
def convertCardToTask (card : KanbanCard) : Task :=
  { id := card.id
    title := card.title
    description := card.description.getD ""
    status := card.status
    priority := card.priority
    dueDate := card.due_date
    assignee := card.assignee.getD ""
    tags := card.tags.getD []
    company := card.company.getD ""
    companyContactName := card.company_contact_name.getD ""
    companyContactPhone := card.company_contact_phone.getD ""
    jobNumber := card.job_number.getD ""
    serviceQuote := card.service_quote.getD ""
    createdAt := card.created_at
    updatedAt := card.updated_at }

/-- The component state touched by the controllers under verification. -/
structure BoardState where
  columns : List Column
  tasks : List Task
  tagOptions : List String
  filters : Filters
  isReordering : Bool
  pendingColumnOrder : List Column
  columnDeletionContext : Option (Column × Column)
  deletingTaskId : Option Nat
  statusUpdating : List Nat
deriving DecidableEq, Repr

/-- Effects observable at a backend call site. -/
structure RequestEffects where
  requestIssued : Bool
  errorNotified : Bool
deriving DecidableEq, Repr

/-- Result of a PATCH call: the server's card payload, or a failure. -/
inductive PatchOutcome where
  | success (card : KanbanCard)
  | failure
deriving DecidableEq, Repr

/-- Result of a DELETE call. -/
inductive DeleteOutcome where
  | success
  | failure
deriving DecidableEq, Repr

/-- markStatusUpdating from the source: add or remove a task id in the
statusUpdating set (insertion-ordered). -/
def markStatusUpdating (current : List Nat) (taskId : Nat) (updating : Bool) : List Nat :=
  if updating then (if current.contains taskId then current else current ++ [taskId])
  else current.filter (fun x => x != taskId)

/-- handleStatusChange from the source: no-op when the task is missing or
already has the target status; otherwise mark busy, optimistically set
the status, send the patch, reconcile on success or revert on failure,
notify errors, and clear the busy mark in a final step. -/
def handleStatusChange (s : BoardState) (taskId : Nat) (status : String)
    (outcome : PatchOutcome) : BoardState × RequestEffects :=
  match s.tasks.find? (fun task => task.id == taskId) with
  | none => (s, { requestIssued := false, errorNotified := false })
  | some currentTask =>
    if currentTask.status == status then
      (s, { requestIssued := false, errorNotified := false })
    else
      let s1 : BoardState := { s with
        statusUpdating := markStatusUpdating s.statusUpdating taskId true
        tasks := s.tasks.map fun task =>
          if task.id == taskId then { task with status := status } else task }
      match outcome with
      | .success card =>
        let updated := convertCardToTask card
        let s2 : BoardState := { s1 with
          tasks := s1.tasks.map fun task => if task.id == updated.id then updated else task }
        ({ s2 with statusUpdating := markStatusUpdating s2.statusUpdating taskId false },
          { requestIssued := true, errorNotified := false })
      | .failure =>
        let s2 : BoardState := { s1 with
          tasks := s1.tasks.map fun task =>
            if task.id == taskId then { task with status := currentTask.status } else task }
        ({ s2 with statusUpdating := markStatusUpdating s2.statusUpdating taskId false },
          { requestIssued := true, errorNotified := true })

/-- handleDeleteTask from the source: suppress a re-invocation for the id
already being deleted; otherwise set the deleting flag, issue the delete,
drop the task on success or leave the store on failure, and clear the
flag in a final step. -/
def handleDeleteTask (s : BoardState) (taskId : Nat) (outcome : DeleteOutcome) :
    BoardState × RequestEffects :=
  if s.deletingTaskId == some taskId then
    (s, { requestIssued := false, errorNotified := false })
  else
    let s1 : BoardState := { s with deletingTaskId := some taskId }
    match outcome with
    | .success =>
      ({ s1 with
          tasks := s1.tasks.filter (fun task => task.id != taskId)
          deletingTaskId := none },
        { requestIssued := true, errorNotified := false })
    | .failure =>
      ({ s1 with deletingTaskId := none },
        { requestIssued := true, errorNotified := true })

/-- handleColumnSubmit from the source (the validated submit callback):
derive the slug, reject a collision with a field-level error, otherwise
append the new column. -/
def handleColumnSubmit (s : BoardState) (label color fresh : String) :
    BoardState × Option String :=
  let nextSlug := slugify label fresh
  if s.columns.any (fun column => column.id == nextSlug) then
    (s, some "Choose a unique name.")
  else
    ({ s with columns := s.columns ++ [{ id := nextSlug, label := label, color := color }] },
      none)

/-- enterReorderMode from the source: snapshot the committed order into
the draft and switch the mode flag on. -/
def enterReorderMode (s : BoardState) : BoardState :=
  { s with pendingColumnOrder := s.columns, isReordering := true }

/-- cancelReorderMode from the source: discard the draft back to the
committed order and leave reorder mode. -/
def cancelReorderMode (s : BoardState) : BoardState :=
  { s with pendingColumnOrder := s.columns, isReordering := false }

/-- saveColumnOrder from the source: commit the draft and leave reorder
mode. -/
def saveColumnOrder (s : BoardState) : BoardState :=
  { s with columns := s.pendingColumnOrder, isReordering := false }

/-- The functional updater inside moveColumn: swap the entries at index
and index+direction, a no-op when the target falls outside the draft. -/
def moveInList (current : List Column) (index : Nat) (direction : Int) : List Column :=
  let targetIndex : Int := (index : Int) + direction
  if targetIndex < 0 || targetIndex ≥ (current.length : Int) then current
  else
    (current.set targetIndex.toNat (current.getD index default)).set index
      (current.getD targetIndex.toNat default)

/-- moveColumn from the source: rearrange only the pending draft order. -/
def moveColumn (s : BoardState) (index : Nat) (direction : Int) : BoardState :=
  { s with pendingColumnOrder := moveInList s.pendingColumnOrder index direction }

/-- A sequence of moveColumn interactions while in reorder mode. -/
def applyMoves (s : BoardState) (moves : List (Nat × Int)) : BoardState :=
  moves.foldl (fun acc m => moveColumn acc m.1 m.2) s

/-- The filter state with every criterion at its default. -/
def defaultFilters : Filters :=
  { search := "", column := "all", priority := .all, tags := [],
    assignee := "all", jobNumber := "all", serviceQuote := "all" }

/-- Sample board used by concrete witnesses: default columns, one task in
the doing column, no operation in flight. -/
def sampleBoard : BoardState :=
  { columns := [⟨"backlog", "Backlog", "gray"⟩, ⟨"doing", "Doing", "indigo"⟩,
      ⟨"done", "Done", "green"⟩]
    tasks := [sampleTask]
    tagOptions := ["Service orders", "Purchase orders", "Sales orders", "Miscellaneous"]
    filters := defaultFilters
    isReordering := false
    pendingColumnOrder := [⟨"backlog", "Backlog", "gray"⟩, ⟨"doing", "Doing", "indigo"⟩,
      ⟨"done", "Done", "green"⟩]
    columnDeletionContext := none
    deletingTaskId := none
    statusUpdating := [] }

lemma not_mem_markStatusUpdating_false (l : List Nat) (taskId : Nat) :
    taskId ∉ markStatusUpdating l taskId false := by
  intro h
  rw [markStatusUpdating] at h
  simp only [if_false, Bool.false_eq_true] at h
  have := (List.mem_filter.mp h).2
  simp at this

/-- C8.  Invoking the status-change operation with the task's current
status is a no-op: no request, no store mutation, no busy flag. -/
theorem statusChange_noop (s : BoardState) (taskId : Nat) (status : String) (ct : Task)
    (outcome : PatchOutcome)
    (hfind : s.tasks.find? (fun task => task.id == taskId) = some ct)
    (heq : ct.status = status) :
    handleStatusChange s taskId status outcome
      = (s, { requestIssued := false, errorNotified := false }) := by
  unfold handleStatusChange
  rw [hfind]
  simp [heq]

/-- Witness for C8: on the sample board, a status change to the task's own
column returns the state unchanged with no request. -/
theorem statusChange_noop_witness :
    handleStatusChange sampleBoard 1 "doing" PatchOutcome.failure
      = (sampleBoard, { requestIssued := false, errorNotified := false }) :=
  statusChange_noop sampleBoard 1 "doing" sampleTask PatchOutcome.failure
    (by decide) (by decide)

/-- C2.  When the patch fails, the optimistic status update is rolled back
(the store equals its prior value) and the error is notified; for either
outcome the status-updating busy flag is cleared in the final step. -/
theorem statusChange_rollback_clears_busy (s : BoardState) (taskId : Nat) (status : String)
    (ct : Task)
    (hids : (s.tasks.map Task.id).Nodup)
    (hfind : s.tasks.find? (fun task => task.id == taskId) = some ct)
    (hne : ct.status ≠ status) :
    ((handleStatusChange s taskId status .failure).1.tasks = s.tasks
      ∧ (handleStatusChange s taskId status .failure).2.errorNotified = true)
    ∧ ∀ outcome, taskId ∉ (handleStatusChange s taskId status outcome).1.statusUpdating := by
  have hct_mem : ct ∈ s.tasks := List.mem_of_find?_eq_some hfind
  have hct_id : ct.id = taskId := by
    have := List.find?_some hfind
    simpa using this
  have hguard : (ct.status == status) = false := by
    simp [hne]
  constructor
  · constructor
    · show (handleStatusChange s taskId status .failure).1.tasks = s.tasks
      simp only [handleStatusChange, hfind]
      rw [if_neg (by simp [hne])]
      simp only [List.map_map]
      have : ∀ task ∈ s.tasks,
          ((fun task => if task.id == taskId then { task with status := ct.status } else task) ∘
            (fun task => if task.id == taskId then { task with status := status } else task)) task
            = id task := by
        intro task hmem
        by_cases hid : task.id = taskId
        · have htask : task = ct := by
            refine List.inj_on_of_nodup_map hids hmem hct_mem ?_
            rw [hid, hct_id]
          subst htask
          have hbeq : (task.id == taskId) = true := by simp [hid]
          simp only [Function.comp_apply, hbeq, if_true, id_eq]
        · have hbeq : (task.id == taskId) = false := by simp [hid]
          simp [Function.comp, hbeq]
      rw [List.map_congr_left this, List.map_id]
    · simp only [handleStatusChange, hfind]
      rw [if_neg (by simp [hne])]
  · intro outcome
    simp only [handleStatusChange, hfind]
    rw [if_neg (by simp [hne])]
    cases outcome with
    | success card => exact not_mem_markStatusUpdating_false _ taskId
    | failure => exact not_mem_markStatusUpdating_false _ taskId

/-- Witness for C2: a failing patch on the sample board leaves the store
as it was, notifies the error, and clears the busy flag. -/
theorem statusChange_rollback_clears_busy_witness :
    (handleStatusChange sampleBoard 1 "done" .failure).1.tasks = sampleBoard.tasks
    ∧ (handleStatusChange sampleBoard 1 "done" .failure).2.errorNotified = true
    ∧ 1 ∉ (handleStatusChange sampleBoard 1 "done" .failure).1.statusUpdating := by
  have h := statusChange_rollback_clears_busy sampleBoard 1 "done" sampleTask
    (by decide) (by decide) (by decide)
  exact ⟨h.1.1, h.1.2, h.2 .failure⟩

/-- C4.  Task deletion is guarded per id (a re-invocation for the id being
deleted is suppressed with no request), leaves the store unchanged and
notifies on failure, removes exactly the task on success, and clears the
deleting flag on every completed path. -/
theorem deleteTask_guard_rollback (s : BoardState) (taskId : Nat) :
    (∀ outcome, s.deletingTaskId = some taskId →
      handleDeleteTask s taskId outcome = (s, { requestIssued := false, errorNotified := false }))
    ∧ (s.deletingTaskId ≠ some taskId →
        ((handleDeleteTask s taskId .failure).1 = { s with deletingTaskId := none }
          ∧ (handleDeleteTask s taskId .failure).2.errorNotified = true)
        ∧ (handleDeleteTask s taskId .success).1
            = { s with
                tasks := s.tasks.filter (fun task => task.id != taskId)
                deletingTaskId := none }
        ∧ ∀ outcome, (handleDeleteTask s taskId outcome).1.deletingTaskId = none) := by
  constructor
  · intro outcome hflag
    unfold handleDeleteTask
    rw [if_pos (by simp [hflag])]
  · intro hflag
    have hcond : ¬(s.deletingTaskId == some taskId) = true := by
      simp [hflag]
    refine ⟨⟨?_, ?_⟩, ?_, ?_⟩
    · unfold handleDeleteTask
      rw [if_neg hcond]
    · unfold handleDeleteTask
      rw [if_neg hcond]
    · unfold handleDeleteTask
      rw [if_neg hcond]
    · intro outcome
      unfold handleDeleteTask
      rw [if_neg hcond]
      cases outcome <;> rfl

/-- Witness for C4 on the sample board: a delete while the same id is
in flight is suppressed; a failing delete leaves the store unchanged. -/
theorem deleteTask_guard_rollback_witness :
    handleDeleteTask { sampleBoard with deletingTaskId := some 1 } 1 .success
      = ({ sampleBoard with deletingTaskId := some 1 },
          { requestIssued := false, errorNotified := false })
    ∧ (handleDeleteTask sampleBoard 1 .failure).1 = { sampleBoard with deletingTaskId := none }
    ∧ (handleDeleteTask sampleBoard 1 .success).1
        = { sampleBoard with
            tasks := sampleBoard.tasks.filter (fun task => task.id != 1)
            deletingTaskId := none } := by
  refine ⟨(deleteTask_guard_rollback { sampleBoard with deletingTaskId := some 1 } 1).1
      .success (by decide), ?_, ?_⟩
  · exact ((deleteTask_guard_rollback sampleBoard 1).2 (by decide)).1.1
  · exact ((deleteTask_guard_rollback sampleBoard 1).2 (by decide)).2.1

/-- C6.  Column creation rejects a label whose slug collides with an
existing column id, surfacing a field-level error and leaving the
registry unchanged; otherwise it appends exactly the new column. -/
theorem columnSubmit_unique_slug (s : BoardState) (label color fresh : String) :
    ((∃ column ∈ s.columns, column.id = slugify label fresh) →
      handleColumnSubmit s label color fresh = (s, some "Choose a unique name."))
    ∧ ((∀ column ∈ s.columns, column.id ≠ slugify label fresh) →
      handleColumnSubmit s label color fresh
        = ({ s with columns := s.columns
              ++ [{ id := slugify label fresh, label := label, color := color }] }, none)) := by
  constructor
  · rintro ⟨column, hmem, hid⟩
    unfold handleColumnSubmit
    rw [if_pos]
    rw [List.any_eq_true]
    exact ⟨column, hmem, by simp [hid]⟩
  · intro hall
    unfold handleColumnSubmit
    rw [if_neg]
    rw [List.any_eq_true]
    rintro ⟨column, hmem, hid⟩
    exact hall column hmem (by simpa using hid)

/-- Witness for C6: creating a column labeled Backlog collides with the
existing backlog id and is rejected without mutating the registry, while
a fresh label is appended. -/
theorem columnSubmit_unique_slug_witness :
    handleColumnSubmit sampleBoard "Backlog" "blue" "z1"
      = (sampleBoard, some "Choose a unique name.")
    ∧ handleColumnSubmit sampleBoard "QA Check" "red" "z2"
      = ({ sampleBoard with columns := sampleBoard.columns
            ++ [{ id := "qa-check", label := "QA Check", color := "red" }] }, none) := by
  constructor
  · exact (columnSubmit_unique_slug sampleBoard "Backlog" "blue" "z1").1
      ⟨⟨"backlog", "Backlog", "gray"⟩, by decide, by decide⟩
  · have h := (columnSubmit_unique_slug sampleBoard "QA Check" "red" "z2").2 (by decide)
    rw [h]
    rfl

lemma applyMoves_frame (s : BoardState) (moves : List (Nat × Int)) :
    applyMoves s moves
      = { s with pendingColumnOrder := (applyMoves s moves).pendingColumnOrder } := by
  induction moves generalizing s with
  | nil => rfl
  | cons m ms ih =>
    show applyMoves (moveColumn s m.1 m.2) ms = _
    rw [ih (moveColumn s m.1 m.2)]
    rfl

/-- C5.  The column-reorder workflow is draft-isolated: entering reorder
mode snapshots the committed order into the draft; moveColumn swaps touch
only the draft and are no-ops when the target index leaves its bounds;
cancel restores the draft to the untouched committed order; save commits
exactly the current draft. -/
theorem reorder_draft_isolation (s : BoardState) (moves : List (Nat × Int))
    (index : Nat) (direction : Int) :
    (enterReorderMode s).pendingColumnOrder = s.columns
    ∧ (applyMoves (enterReorderMode s) moves).columns = s.columns
    ∧ (applyMoves (enterReorderMode s) moves
        = { enterReorderMode s with
            pendingColumnOrder := (applyMoves (enterReorderMode s) moves).pendingColumnOrder })
    ∧ (((index : Int) + direction < 0
          ∨ (s.pendingColumnOrder.length : Int) ≤ (index : Int) + direction) →
        moveColumn s index direction = s)
    ∧ cancelReorderMode (applyMoves (enterReorderMode s) moves)
        = { s with pendingColumnOrder := s.columns, isReordering := false }
    ∧ (saveColumnOrder (applyMoves (enterReorderMode s) moves)).columns
        = (applyMoves (enterReorderMode s) moves).pendingColumnOrder := by
  have hframe := applyMoves_frame (enterReorderMode s) moves
  refine ⟨rfl, ?_, hframe, ?_, ?_, rfl⟩
  · rw [hframe]
    rfl
  · intro hout
    show { s with pendingColumnOrder := moveInList s.pendingColumnOrder index direction } = s
    rw [moveInList]
    rw [if_pos (by
      simp only [Bool.or_eq_true, decide_eq_true_eq]
      rcases hout with hneg | hover
      · exact Or.inl hneg
      · exact Or.inr (by omega))]
  · rw [hframe]
    rfl

/-- Witness for C5: on the sample board, an out-of-bounds move is a no-op
and a swap followed by cancel restores the committed order. -/
theorem reorder_draft_isolation_witness :
    moveColumn sampleBoard 2 1 = sampleBoard
    ∧ (applyMoves (enterReorderMode sampleBoard) [(0, 1)]).columns = sampleBoard.columns
    ∧ cancelReorderMode (applyMoves (enterReorderMode sampleBoard) [(0, 1)])
        = { sampleBoard with pendingColumnOrder := sampleBoard.columns, isReordering := false } := by
  have h := reorder_draft_isolation sampleBoard [(0, 1)] 2 1
  exact ⟨h.2.2.2.1 (by decide), h.2.1, h.2.2.2.2.1⟩

/-! ### Tag vocabulary -/

/-- DEFAULT_TAG_OPTIONS from the source. -/
def DEFAULT_TAG_OPTIONS : List String :=
  ["Service orders", "Purchase orders", "Sales orders", "Miscellaneous"]

/-- First-occurrence deduplication with an accumulator of entries already
seen: the model of Array.from(new Set(xs)) with xs traversed in order. -/
def dedupFirstAux (seen : List String) : List String → List String
  | [] => []
  | a :: rest =>
    if a ∈ seen then dedupFirstAux seen rest else a :: dedupFirstAux (a :: seen) rest

/-- Array.from(new Set(xs)): keep the first occurrence of each entry. -/
def dedupFirst (l : List String) : List String :=
  dedupFirstAux [] l

/-- The deduplicated non-empty tags found on the current tasks (the
serverTags computation of the tag-options useEffect). -/
def serverTagsOf (tasks : List Task) : List String :=
  dedupFirst ((tasks.flatMap fun task => task.tags).filter fun tag => tag != "")

/-- The combined vocabulary candidate of the tag-options useEffect:
defaults, then the current vocabulary, then the server tags, deduplicated
keeping first occurrences. -/
def combinedTags (tasks : List Task) (current : List String) : List String :=
  dedupFirst (DEFAULT_TAG_OPTIONS ++ current ++ serverTagsOf tasks)

/-- The tag-options useEffect body: keep the vocabulary when no server
tags exist or when the combination adds nothing, else publish the
combination. -/
def recomputeTagOptions (tasks : List Task) (current : List String) : List String :=
  if (serverTagsOf tasks).length == 0 then current
  else
    if (combinedTags tasks current).length == current.length
        && (combinedTags tasks current).all (fun value => current.contains value) then
      current
    else combinedTags tasks current

lemma mem_dedupFirstAux (l : List String) : ∀ (seen : List String) (a : String),
    a ∈ dedupFirstAux seen l ↔ a ∈ l ∧ a ∉ seen := by
  induction l with
  | nil => intro seen a; simp [dedupFirstAux]
  | cons b rest ih =>
    intro seen a
    by_cases hb : b ∈ seen
    · rw [dedupFirstAux, if_pos hb, ih]
      constructor
      · rintro ⟨ha, hs⟩
        exact ⟨List.mem_cons_of_mem _ ha, hs⟩
      · rintro ⟨ha, hs⟩
        rcases List.mem_cons.mp ha with rfl | ha'
        · exact absurd hb hs
        · exact ⟨ha', hs⟩
    · rw [dedupFirstAux, if_neg hb]
      constructor
      · intro h
        rcases List.mem_cons.mp h with rfl | h'
        · exact ⟨List.mem_cons_self _ _, hb⟩
        · obtain ⟨ha, hs⟩ := (ih _ _).mp h'
          exact ⟨List.mem_cons_of_mem _ ha, fun hseen => hs (List.mem_cons_of_mem _ hseen)⟩
      · rintro ⟨ha, hs⟩
        rcases List.mem_cons.mp ha with rfl | ha'
        · exact List.mem_cons_self _ _
        · by_cases hab : a = b
          · subst hab
            exact List.mem_cons_self _ _
          · refine List.mem_cons_of_mem _ ((ih _ _).mpr ⟨ha', ?_⟩)
            intro hmem
            rcases List.mem_cons.mp hmem with h | h
            · exact hab h
            · exact hs h

lemma dedupFirstAux_congr (l : List String) : ∀ {s1 s2 : List String},
    (∀ x, x ∈ s1 ↔ x ∈ s2) → dedupFirstAux s1 l = dedupFirstAux s2 l := by
  induction l with
  | nil => intro s1 s2 _; rfl
  | cons b rest ih =>
    intro s1 s2 h
    by_cases hb : b ∈ s1
    · rw [dedupFirstAux, if_pos hb, dedupFirstAux, if_pos ((h b).mp hb)]
      exact ih h
    · rw [dedupFirstAux, if_neg hb, dedupFirstAux, if_neg (fun hb2 => hb ((h b).mpr hb2))]
      refine congrArg (b :: ·) (ih fun x => ?_)
      simp only [List.mem_cons, h x]

lemma dedupFirstAux_append_seen : ∀ (xs : List String) (ys seen : List String),
    (∀ x ∈ xs, x ∈ seen) → dedupFirstAux seen (xs ++ ys) = dedupFirstAux seen ys := by
  intro xs
  induction xs with
  | nil => intro ys seen _; rfl
  | cons b xs' ih =>
    intro ys seen h
    rw [List.cons_append, dedupFirstAux, if_pos (h b (List.mem_cons_self _ _))]
    exact ih ys seen fun x hx => h x (List.mem_cons_of_mem _ hx)

lemma dedupFirstAux_append_nodup : ∀ (xs : List String), xs.Nodup →
    ∀ (ys seen : List String), (∀ x ∈ xs, x ∉ seen) →
      dedupFirstAux seen (xs ++ ys) = xs ++ dedupFirstAux (xs.reverse ++ seen) ys := by
  intro xs
  induction xs with
  | nil => intro _ ys seen _; simp
  | cons b xs' ih =>
    intro hnd ys seen hdisj
    rw [List.cons_append, dedupFirstAux, if_neg (hdisj b (List.mem_cons_self _ _))]
    have hb_not : b ∉ xs' := (List.nodup_cons.mp hnd).1
    have hstep := ih (List.nodup_cons.mp hnd).2 ys (b :: seen) (by
      intro x hx hmem
      rcases List.mem_cons.mp hmem with rfl | h
      · exact hb_not hx
      · exact hdisj x (List.mem_cons_of_mem _ hx) h)
    rw [hstep, List.cons_append]
    refine congrArg (fun t => b :: (xs' ++ t)) (dedupFirstAux_congr _ fun x => ?_)
    simp only [List.mem_append, List.mem_reverse, List.mem_cons, List.reverse_cons,
      List.mem_singleton]
    tauto

/-- A task fetched with an empty-string tag, refuting C9 as frozen: the
effect drops falsy tags, so "" occurs on a current task yet never enters
the vocabulary. -/
def emptyTagTask : Task :=
  { id := 2, title := "Ghost", description := "", status := "backlog",
    priority := .low, dueDate := none, assignee := "", tags := [""],
    company := "", companyContactName := "", companyContactPhone := "",
    jobNumber := "", serviceQuote := "", createdAt := "", updatedAt := "" }

/-- Counterexample to C9 as frozen: the empty string is a tag occurring
on the current tasks, but after the effect runs the vocabulary (here the
defaults) does not contain it, so the republished vocabulary is not a
superset of every tag occurring on the current tasks. -/
theorem tagOptions_monotone_counterexample :
    "" ∈ emptyTagTask.tags
    ∧ recomputeTagOptions [emptyTagTask] DEFAULT_TAG_OPTIONS = DEFAULT_TAG_OPTIONS
    ∧ "" ∉ recomputeTagOptions [emptyTagTask] DEFAULT_TAG_OPTIONS := by
  refine ⟨by decide, by decide, by decide⟩

/-- C9 amended.  The derived tag vocabulary is monotone under task
loading: given the vocabulary invariants (defaults form its prefix, no
duplicates), the republished vocabulary extends the previous one at its
end (so it never shrinks and preexisting positions are stable), contains
every default, and contains every non-empty tag of the loaded tasks
(empty-string tags are discarded by the effect's truthiness filter). -/
theorem tagOptions_monotone_amended (tasks : List Task) (current : List String)
    (rest : List String)
    (hpre : current = DEFAULT_TAG_OPTIONS ++ rest)
    (hnd : current.Nodup) :
    ∃ ext, recomputeTagOptions tasks current = current ++ ext
      ∧ (∀ d ∈ DEFAULT_TAG_OPTIONS, d ∈ recomputeTagOptions tasks current)
      ∧ (∀ task ∈ tasks, ∀ tag ∈ task.tags, tag ≠ "" →
          tag ∈ recomputeTagOptions tasks current) := by
  have hD_nodup : DEFAULT_TAG_OPTIONS.Nodup := by decide
  have htag_mem_server : ∀ task ∈ tasks, ∀ tag ∈ task.tags, tag ≠ "" →
      tag ∈ serverTagsOf tasks := by
    intro task htask tag htag hne
    rw [serverTagsOf, dedupFirst, mem_dedupFirstAux]
    refine ⟨List.mem_filter.mpr ⟨List.mem_flatMap.mpr ⟨task, htask, htag⟩, ?_⟩, by simp⟩
    simpa using hne
  by_cases hS : ((serverTagsOf tasks).length == 0) = true
  · have hSnil : serverTagsOf tasks = [] := by
      rcases hcase : serverTagsOf tasks with _ | ⟨x, xs⟩
      · rfl
      · rw [hcase] at hS
        simp at hS
    refine ⟨[], ?_, ?_, ?_⟩
    · rw [recomputeTagOptions, if_pos hS, List.append_nil]
    · intro d hd
      rw [recomputeTagOptions, if_pos hS, hpre]
      exact List.mem_append_left _ hd
    · intro task htask tag htag hne
      have := htag_mem_server task htask tag htag hne
      rw [hSnil] at this
      cases this
  · set ext := dedupFirstAux (rest.reverse ++ DEFAULT_TAG_OPTIONS.reverse) (serverTagsOf tasks)
      with hext
    have hcomb : combinedTags tasks current = current ++ ext := by
      rw [combinedTags, hpre, dedupFirst]
      rw [List.append_assoc DEFAULT_TAG_OPTIONS (DEFAULT_TAG_OPTIONS ++ rest) (serverTagsOf tasks)]
      rw [List.append_assoc DEFAULT_TAG_OPTIONS rest (serverTagsOf tasks)]
      rw [dedupFirstAux_append_nodup DEFAULT_TAG_OPTIONS hD_nodup _ [] (by simp)]
      rw [dedupFirstAux_append_seen DEFAULT_TAG_OPTIONS _ _ (by
        intro x hx
        simp [hx])]
      have hrest_nodup : rest.Nodup := by
        rw [hpre] at hnd
        exact (List.nodup_append.mp hnd).2.1
      have hdisj : ∀ x ∈ rest, x ∉ DEFAULT_TAG_OPTIONS.reverse ++ ([] : List String) := by
        rw [hpre] at hnd
        intro x hx hmem
        simp only [List.append_nil, List.mem_reverse] at hmem
        exact (List.nodup_append.mp hnd).2.2 hmem hx
      rw [dedupFirstAux_append_nodup rest hrest_nodup _ _ hdisj, ← List.append_assoc]
      refine congrArg (fun t => (DEFAULT_TAG_OPTIONS ++ rest) ++ t)
        (dedupFirstAux_congr _ fun x => ?_)
      simp only [List.mem_append, List.append_nil]
    have hmem_comb : ∀ tag ∈ serverTagsOf tasks, tag ∈ combinedTags tasks current := by
      intro tag htag
      rw [combinedTags, dedupFirst, mem_dedupFirstAux]
      exact ⟨List.mem_append_right _ htag, by simp⟩
    have hD_comb : ∀ d ∈ DEFAULT_TAG_OPTIONS, d ∈ combinedTags tasks current := by
      intro d hd
      rw [hcomb, hpre]
      exact List.mem_append_left _ (List.mem_append_left _ hd)
    by_cases hkeep : ((combinedTags tasks current).length == current.length
        && (combinedTags tasks current).all (fun value => current.contains value)) = true
    · have hext_nil : ext = [] := by
        have hlen : (combinedTags tasks current).length = current.length := by
          have := (Bool.and_eq_true _ _).mp hkeep
          simpa using this.1
        rw [hcomb, List.length_append] at hlen
        have : ext.length = 0 := by omega
        exact List.length_eq_zero.mp this
      have hres : recomputeTagOptions tasks current = current := by
        rw [recomputeTagOptions, if_neg hS, if_pos hkeep]
      refine ⟨[], by rw [hres, List.append_nil], ?_, ?_⟩
      · intro d hd
        rw [hres, hpre]
        exact List.mem_append_left _ hd
      · intro task htask tag htag hne
        have h1 := hmem_comb tag (htag_mem_server task htask tag htag hne)
        rw [hcomb, hext_nil, List.append_nil] at h1
        rw [hres]
        exact h1
    · have hres : recomputeTagOptions tasks current = combinedTags tasks current := by
        rw [recomputeTagOptions, if_neg hS, if_neg hkeep]
      refine ⟨ext, by rw [hres, hcomb], ?_, ?_⟩
      · intro d hd
        rw [hres]
        exact hD_comb d hd
      · intro task htask tag htag hne
        rw [hres]
        exact hmem_comb tag (htag_mem_server task htask tag htag hne)

/-- Witness for the amended C9: loading a task carrying a previously
unseen non-empty tag extends the sample vocabulary at the end, keeping
defaults and making the new tag known. -/
theorem tagOptions_monotone_amended_witness :
    (∃ ext, recomputeTagOptions [sampleTask] sampleBoard.tagOptions
        = sampleBoard.tagOptions ++ ext)
    ∧ "Urgent" ∈ recomputeTagOptions [sampleTask] sampleBoard.tagOptions := by
  have h := tagOptions_monotone_amended [sampleTask] sampleBoard.tagOptions []
    (by decide) (by decide)
  obtain ⟨ext, hext, _, htags⟩ := h
  exact ⟨⟨ext, hext⟩, htags sampleTask (by decide) "Urgent" (by decide) (by decide)⟩

/-! ### Column deletion -/

/-- handleDeleteColumn from the source: a no-op for the first column or an
unknown id; otherwise every task of the column is transitioned via
handleStatusChange to the preceding column, the column is removed from
the registry, and a column filter pointing at it is reset to the
sentinel.  The per-task patch results are supplied by outs. -/
def handleDeleteColumn (s : BoardState) (columnId : String) (outs : Nat → PatchOutcome) :
    BoardState :=
  match s.columns.findIdx? (fun column => column.id == columnId) with
  | none => s
  | some 0 => s
  | some (i + 1) =>
    let fallbackId := (s.columns.getD i default).id
    let affectedTasks := s.tasks.filter (fun task => task.status == columnId)
    let s1 := affectedTasks.foldl
      (fun acc task => (handleStatusChange acc task.id fallbackId (outs task.id)).1) s
    { s1 with
        columns := s1.columns.filter (fun column => column.id != columnId)
        filters := { s1.filters with
          column := if s1.filters.column == columnId then "all" else s1.filters.column }
        columnDeletionContext := none }

/-- The shape of the task store part-way through the reassignment fold:
tasks of the deleted column whose ids are no longer pending carry the
fallback status already. -/
def reassignPending (columnId fallbackId : String) (remIds : List Nat) (task : Task) : Task :=
  if task.status == columnId && !(remIds.contains task.id) then
    { task with status := fallbackId }
  else task

lemma reassignPending_id (columnId fallbackId : String) (remIds : List Nat) (task : Task) :
    (reassignPending columnId fallbackId remIds task).id = task.id := by
  rw [reassignPending]
  split <;> rfl

lemma find?_eq_of_nodup_ids : ∀ (orig : List Task), ((orig.map Task.id).Nodup) →
    ∀ p ∈ orig, orig.find? (fun t => t.id == p.id) = some p := by
  intro orig
  induction orig with
  | nil => intro _ p hp; cases hp
  | cons a l ih =>
    intro hnd p hp
    have hnd' : (a.id :: l.map Task.id).Nodup := by simpa using hnd
    by_cases hid : (a.id == p.id) = true
    · have hap : a = p := by
        rcases List.mem_cons.mp hp with rfl | hp'
        · rfl
        · exfalso
          have : p.id ∈ l.map Task.id := List.mem_map_of_mem _ hp'
          rw [← beq_iff_eq.mp hid] at this
          exact (List.nodup_cons.mp hnd').1 this
      rw [show (a :: l).find? (fun t => t.id == p.id) = some a from
        List.find?_cons_of_pos _ hid, hap]
    · have hp' : p ∈ l := by
        rcases List.mem_cons.mp hp with rfl | hp'
        · exact absurd (by simp) hid
        · exact hp'
      rw [show (a :: l).find? (fun t => t.id == p.id) = l.find? (fun t => t.id == p.id) from
        List.find?_cons_of_neg _ (by simpa using hid)]
      exact ih (List.nodup_cons.mp hnd').2 p hp'

lemma findIdx?_getD_pred_false (p : Column → Bool) :
    ∀ (n : Nat) (l : List Column), l.findIdx? p = some (n + 1) →
      p (l.getD n default) = false := by
  intro n
  induction n with
  | zero =>
    intro l h
    cases l with
    | nil => cases h
    | cons a l' =>
      rw [List.findIdx?_cons] at h
      by_cases hp : p a = true
      · rw [if_pos hp] at h
        cases h
      · simpa using hp
  | succ m ih =>
    intro l h
    cases l with
    | nil => cases h
    | cons a l' =>
      rw [List.findIdx?_cons] at h
      by_cases hp : p a = true
      · rw [if_pos hp] at h
        cases h
      · rw [if_neg hp, List.findIdx?_start_succ] at h
        have h' : l'.findIdx? p = some (m + 1) := by
          rcases hk : l'.findIdx? p 0 with _ | k
          · rw [hk] at h
            cases h
          · rw [hk] at h
            simp at h
            have hkm : k = m + 1 := by omega
            exact congrArg some hkm
        have := ih l' h'
        simpa using this

lemma statusChange_success_step (s : BoardState) (p : Task) (fallbackId : String)
    (card : KanbanCard)
    (hfind : s.tasks.find? (fun t => t.id == p.id) = some p)
    (hstat : p.status ≠ fallbackId)
    (hcard : convertCardToTask card = { p with status := fallbackId }) :
    ((handleStatusChange s p.id fallbackId (.success card)).1.tasks
        = s.tasks.map (fun t => if t.id == p.id then { p with status := fallbackId } else t))
    ∧ (handleStatusChange s p.id fallbackId (.success card)).1.columns = s.columns
    ∧ (handleStatusChange s p.id fallbackId (.success card)).1.filters = s.filters := by
  simp only [handleStatusChange, hfind]
  rw [if_neg (by simp [hstat])]
  refine ⟨?_, rfl, rfl⟩
  simp only [List.map_map, hcard]
  refine List.map_congr_left fun t _ => ?_
  by_cases hid : (t.id == p.id) = true
  · simp only [Function.comp_apply, hid, if_true]
  · rw [Bool.not_eq_true] at hid
    simp only [Function.comp_apply, hid]
    simp only [Bool.false_eq_true, if_false, hid]

lemma deleteColumn_fold (columnId fallbackId : String) (outs : Nat → PatchOutcome)
    (hne : fallbackId ≠ columnId) :
    ∀ (rem : List Task) (s : BoardState) (orig : List Task),
      (orig.map Task.id).Nodup →
      s.tasks = orig.map (reassignPending columnId fallbackId (rem.map Task.id)) →
      (∀ p ∈ rem, p ∈ orig ∧ p.status = columnId) →
      (rem.map Task.id).Nodup →
      (∀ p ∈ rem, ∃ card, outs p.id = PatchOutcome.success card
          ∧ convertCardToTask card = { p with status := fallbackId }) →
      ((rem.foldl
            (fun acc task => (handleStatusChange acc task.id fallbackId (outs task.id)).1)
            s).tasks
          = orig.map (reassignPending columnId fallbackId [])
        ∧ (rem.foldl
            (fun acc task => (handleStatusChange acc task.id fallbackId (outs task.id)).1)
            s).columns = s.columns
        ∧ (rem.foldl
            (fun acc task => (handleStatusChange acc task.id fallbackId (outs task.id)).1)
            s).filters = s.filters) := by
  intro rem
  induction rem with
  | nil =>
    intro s orig hids hcur hrem hremnd houts
    exact ⟨by simpa using hcur, rfl, rfl⟩
  | cons p rem' ih =>
    intro s orig hids hcur hrem hremnd houts
    obtain ⟨hp_orig, hp_status⟩ := hrem p (List.mem_cons_self _ _)
    obtain ⟨card, hout_p, hcard⟩ := houts p (List.mem_cons_self _ _)
    have hremnd' : (p.id :: rem'.map Task.id).Nodup := by simpa using hremnd
    have hp_not_rem' : p.id ∉ rem'.map Task.id := (List.nodup_cons.mp hremnd').1
    have hcontains : (((p :: rem').map Task.id).contains p.id) = true := by
      simp
    have hg_p : reassignPending columnId fallbackId ((p :: rem').map Task.id) p = p := by
      rw [reassignPending, if_neg]
      rw [hcontains]
      simp
    have hfind : s.tasks.find? (fun t => t.id == p.id) = some p := by
      rw [hcur, List.find?_map]
      have hpred : ((fun t => t.id == p.id)
          ∘ (reassignPending columnId fallbackId ((p :: rem').map Task.id)))
          = fun t => t.id == p.id := by
        funext t
        simp [Function.comp, reassignPending_id]
      rw [hpred, find?_eq_of_nodup_ids orig hids p hp_orig]
      simp [reassignPending]
    have hstat_ne : p.status ≠ fallbackId := by
      rw [hp_status]
      exact fun h => hne h.symm
    have hstep := statusChange_success_step s p fallbackId card hfind hstat_ne hcard
    have hcur2 : (handleStatusChange s p.id fallbackId (.success card)).1.tasks
        = orig.map (reassignPending columnId fallbackId (rem'.map Task.id)) := by
      rw [hstep.1, hcur, List.map_map]
      refine List.map_congr_left fun t ht => ?_
      by_cases hid : t.id = p.id
      · have ht_p : t = p := List.inj_on_of_nodup_map hids ht hp_orig hid
        subst ht_p
        have hcond : (t.status == columnId && !((rem'.map Task.id).contains t.id)) = true := by
          have hc : ((rem'.map Task.id).contains t.id) = false := by
            simpa using hp_not_rem'
          rw [hc, hp_status]
          simp
        simp only [Function.comp_apply, hg_p]
        rw [if_pos (by simp : (t.id == t.id) = true)]
        rw [reassignPending, if_pos hcond]
      · have hbid : ((reassignPending columnId fallbackId ((p :: rem').map Task.id) t).id
            == p.id) = false := by
          rw [reassignPending_id]
          simp [hid]
        have hcont_eq : (((p :: rem').map Task.id).contains t.id)
            = ((rem'.map Task.id).contains t.id) := by
          simp [hid]
        simp only [Function.comp_apply, hbid, Bool.false_eq_true, if_false]
        rw [reassignPending, reassignPending, hcont_eq]
    have hres := ih (handleStatusChange s p.id fallbackId (.success card)).1 orig hids hcur2
      (fun q hq => hrem q (List.mem_cons_of_mem _ hq))
      (List.nodup_cons.mp hremnd').2
      (fun q hq => houts q (List.mem_cons_of_mem _ hq))
    simp only [List.foldl_cons, hout_p]
    exact ⟨hres.1, hres.2.1.trans hstep.2.1, hres.2.2.trans hstep.2.2⟩

/-- C3.  Deleting the column at registry position 0 (or an unknown id) is
a no-op.  Deleting the column at a later position, when the backend
echoes each patched task with the fallback status, moves every task of
the column to the immediately preceding column, removes the column from
the registry, and resets a column filter pointing at it to the sentinel,
leaving other filters untouched. -/
theorem deleteColumn_spec :
    (∀ (s : BoardState) (columnId : String) (outs : Nat → PatchOutcome),
      (s.columns.findIdx? (fun column => column.id == columnId) = none
        ∨ s.columns.findIdx? (fun column => column.id == columnId) = some 0) →
      handleDeleteColumn s columnId outs = s)
    ∧ ∀ (s : BoardState) (columnId : String) (outs : Nat → PatchOutcome) (i : Nat),
      s.columns.findIdx? (fun column => column.id == columnId) = some (i + 1) →
      (s.tasks.map Task.id).Nodup →
      (∀ p ∈ s.tasks.filter (fun task => task.status == columnId),
        ∃ card, outs p.id = PatchOutcome.success card
          ∧ convertCardToTask card = { p with status := (s.columns.getD i default).id }) →
      (handleDeleteColumn s columnId outs).tasks
          = s.tasks.map (fun task =>
              if task.status == columnId then
                { task with status := (s.columns.getD i default).id }
              else task)
        ∧ (handleDeleteColumn s columnId outs).columns
            = s.columns.filter (fun column => column.id != columnId)
        ∧ (handleDeleteColumn s columnId outs).filters.column
            = (if s.filters.column = columnId then "all" else s.filters.column) := by
  constructor
  · intro s columnId outs h
    rcases h with h | h
    · simp only [handleDeleteColumn, h]
    · simp only [handleDeleteColumn, h]
  · intro s columnId outs i hidx hids houts
    have hfb_false : ((s.columns.getD i default).id == columnId) = false :=
      findIdx?_getD_pred_false _ i s.columns hidx
    have hne : (s.columns.getD i default).id ≠ columnId := by
      simpa using hfb_false
    have hcur0 : s.tasks = s.tasks.map
        (reassignPending columnId (s.columns.getD i default).id
          ((s.tasks.filter (fun task => task.status == columnId)).map Task.id)) := by
      have hpt : ∀ t ∈ s.tasks,
          reassignPending columnId (s.columns.getD i default).id
            ((s.tasks.filter (fun task => task.status == columnId)).map Task.id) t = t := by
        intro t ht
        rw [reassignPending]
        by_cases hst : (t.status == columnId) = true
        · have hmemf : t ∈ s.tasks.filter (fun task => task.status == columnId) :=
            List.mem_filter.mpr ⟨ht, hst⟩
          have hcont : (((s.tasks.filter (fun task => task.status == columnId)).map
              Task.id).contains t.id) = true := by
            have := List.mem_map_of_mem Task.id hmemf
            simpa using this
          rw [hcont]
          simp
        · rw [Bool.not_eq_true] at hst
          rw [hst]
          simp
      exact (((List.map_congr_left hpt).trans (List.map_id _))).symm
    have hrem : ∀ p ∈ s.tasks.filter (fun task => task.status == columnId),
        p ∈ s.tasks ∧ p.status = columnId := by
      intro p hp
      obtain ⟨hp1, hp2⟩ := List.mem_filter.mp hp
      exact ⟨hp1, by simpa using hp2⟩
    have hremnd : ((s.tasks.filter (fun task => task.status == columnId)).map
        Task.id).Nodup := by
      refine List.Nodup.sublist ?_ hids
      exact (List.filter_sublist _).map Task.id
    have hfold := deleteColumn_fold columnId (s.columns.getD i default).id outs hne
      (s.tasks.filter (fun task => task.status == columnId)) s s.tasks hids hcur0 hrem
      hremnd houts
    simp only [handleDeleteColumn, hidx]
    refine ⟨?_, ?_, ?_⟩
    · rw [hfold.1]
      refine List.map_congr_left fun t _ => ?_
      rw [reassignPending]
      simp
    · rw [hfold.2.1]
    · rw [hfold.2.2]
      by_cases h : s.filters.column = columnId
      · simp [h]
      · simp [h]

/-- Server card echoing the sample task moved to the backlog column, used
by the column-deletion witness. -/
def sampleCard : KanbanCard :=
  { id := 1, title := "Alpha install", description := some "Install the unit",
    status := "backlog", priority := .high, due_date := none,
    assignee := some "Ann", tags := some ["Service orders", "Urgent"],
    company := some "Acme", company_contact_name := some "Bob",
    company_contact_phone := some "555", job_number := some "J1",
    service_quote := some "Q1", is_active := true,
    created_at := "", updated_at := "" }

/-- Witness for C3 on the sample board [backlog, doing, done] with one
task in doing: deleting backlog (position 0) is a no-op; deleting doing
moves the task to backlog and removes doing from the registry. -/
theorem deleteColumn_spec_witness :
    handleDeleteColumn sampleBoard "backlog" (fun _ => PatchOutcome.failure) = sampleBoard
    ∧ (handleDeleteColumn sampleBoard "doing" (fun _ => PatchOutcome.success sampleCard)).tasks
        = [{ sampleTask with status := "backlog" }]
    ∧ (handleDeleteColumn sampleBoard "doing"
          (fun _ => PatchOutcome.success sampleCard)).columns
        = [⟨"backlog", "Backlog", "gray"⟩, ⟨"done", "Done", "green"⟩] := by
  have h1 := deleteColumn_spec.1 sampleBoard "backlog" (fun _ => PatchOutcome.failure)
    (Or.inr (by decide))
  have h2 := deleteColumn_spec.2 sampleBoard "doing" (fun _ => PatchOutcome.success sampleCard)
    0 (by decide) (by decide) (by
      intro p hp
      have hp' : p = sampleTask := by
        have hlist : sampleBoard.tasks.filter (fun task => task.status == "doing")
            = [sampleTask] := by decide
        rw [hlist] at hp
        simpa using hp
      subst hp'
      exact ⟨sampleCard, rfl, by decide⟩)
  refine ⟨h1, ?_, ?_⟩
  · rw [h2.1]
    decide
  · rw [h2.2.1]
    decide

end Kanban

